import Mathlib
set_option maxRecDepth 40000

/-!
Verification of the FlowState flowchart textual-protocol layer.

Shallow embedding of the string-processing core of
`src/jiu_jitsu_functions.py`: the mermaid sanitizer (`sanitize_mermaid`),
the pivot resolver (`next_move`), the reply classifier of
`generate_flow_chart_with_start`, and the strategy formatter
(`format_strategy_for_display`).

Text is modelled as `List Char`.  Python string primitives (`strip`,
`split`, `replace`, `find`, `startswith`, `in`, slicing) are reproduced
with the same semantics; `str.lower` is modelled as ASCII lowercasing.
Loops whose index arithmetic does not structurally decrease are given
explicit fuel equal to the input length plus one, which is always enough
because every iteration consumes at least one character.
-/

/-- Text as a list of characters, the shallow embedding of Python `str`. -/
abbrev LC := List Char

/-- Conversion from a Lean string literal to the embedding. -/
def toLC (s : String) : LC := s.toList

/-- Python whitespace for `str.strip`: space, tab, newline, carriage
return, vertical tab, form feed. -/
def pyIsSpace (c : Char) : Bool :=
  c = ' ' || c = '\t' || c = '\n' || c = '\r' || c.toNat = 11 || c.toNat = 12

/-- Python `str.strip()`: drop leading and trailing whitespace. -/
def pyStrip (l : LC) : LC :=
  ((l.dropWhile pyIsSpace).reverse.dropWhile pyIsSpace).reverse

/-- Python `pat in s` (substring containment). -/
def containsSub (pat : LC) : LC → Bool
  | [] => pat.isPrefixOf ([] : LC)
  | c :: t => pat.isPrefixOf (c :: t) || containsSub pat t

/-- Split at the first occurrence of `pat`: `some (before, after)` with
`l = before ++ pat ++ after`, or `none` when `pat` does not occur.
Mirrors Python `find` / `split(pat, 1)`. -/
def splitFirst (pat : LC) : LC → Option (LC × LC)
  | [] => if pat.isPrefixOf ([] : LC) then some ([], []) else none
  | c :: t =>
    if pat.isPrefixOf (c :: t) then some ([], (c :: t).drop pat.length)
    else
      match splitFirst pat t with
      | some (b, a) => some (c :: b, a)
      | none => none

/-- Python `s.split(pat)[0]` (text before the first occurrence; the whole
string when `pat` is absent). -/
def beforeFirst (pat l : LC) : LC :=
  match splitFirst pat l with
  | some (b, _) => b
  | none => l

/-- Python `s.split(pat, 1)[1]` (text after the first occurrence), used
only under a guard that `pat` occurs. -/
def afterFirst (pat l : LC) : LC :=
  match splitFirst pat l with
  | some (_, a) => a
  | none => []

/-- Python `s.split(pat)[1]`: the segment between the first and second
occurrences of `pat` (to the end when there is no second occurrence),
used only under a guard that `pat` occurs. -/
def part1Split (pat l : LC) : LC :=
  match splitFirst pat l with
  | some (_, a) => beforeFirst pat a
  | none => l

/-- Python `s.replace(pat, rep)` (global, non-overlapping, left to
right), with fuel; each step consumes at least one character. -/
def replaceSubF (pat rep : LC) : Nat → LC → LC
  | 0, l => l
  | _ + 1, [] => []
  | f + 1, c :: t =>
    if pat.isPrefixOf (c :: t) then rep ++ replaceSubF pat rep f ((c :: t).drop pat.length)
    else c :: replaceSubF pat rep f t

/-- Python `s.replace(pat, rep)` for non-empty `pat`. -/
def replaceSub (pat rep l : LC) : LC := replaceSubF pat rep (l.length + 1) l

/-- Python `s.split(sep)` returning all parts, with fuel. -/
def splitAllF (pat : LC) : Nat → LC → List LC
  | 0, l => [l]
  | f + 1, l =>
    match splitFirst pat l with
    | some (b, a) => b :: splitAllF pat f a
    | none => [l]

/-- Python `s.split(sep)` for non-empty `sep`. -/
def splitAll (pat l : LC) : List LC := splitAllF pat (l.length + 1) l

/-- Python `s.split('\n')`: always returns at least one part. -/
def splitLines : LC → List LC
  | [] => [[]]
  | c :: t =>
    if c = '\n' then [] :: splitLines t
    else
      match splitLines t with
      | h :: r => (c :: h) :: r
      | [] => [[c]]

/-- ASCII lowercasing of one character, modelling Python `str.lower` on
the ASCII range. -/
def lowerC (c : Char) : Char :=
  if 'A' ≤ c && c ≤ 'Z' then Char.ofNat (c.toNat + 32) else c

/-- ASCII lowercasing of a text. -/
def lowerL (l : LC) : LC := l.map lowerC

/-- Python `t.startswith('"') and t.endswith('"')` (true for the
one-character text consisting of a double quote, as in Python). -/
def quotedEnds (t : LC) : Bool :=
  (match t with | '"' :: _ => true | _ => false) &&
  (match t.reverse with | '"' :: _ => true | _ => false)

/-- Strip one surrounding pair of double quotes when
`startswith('"') and endswith('"')`, i.e. Python `t[1:-1]` under that
guard; otherwise return the text unchanged. -/
def unquote (t : LC) : LC :=
  if quotedEnds t then (t.drop 1).dropLast else t

/-! ## Graph text sanitizer (`sanitize_mermaid`, jiu_jitsu_functions.py:344-467) -/

/-- The debug markers and fence tokens the sanitizer looks for. -/
def dbgInfoMark : LC := toLC "DEBUG INFO:"

/-- Marker introducing the mermaid part of a generated reply. -/
def mermaidMark : LC := toLC "MERMAID:"

/-- Trailing debug-section opener. -/
def dbgOpenMark : LC := toLC "[Debug:"

/-- Markdown mermaid fence. -/
def fenceMermaid : LC := toLC "```mermaid"

/-- Markdown fence. -/
def fencePlain : LC := toLC "```"

/-- Debug stripping shared by `sanitize_mermaid` and `next_move`: keep
the text between the first and second `MERMAID:` markers when a
`DEBUG INFO:` section is present, then drop everything from a trailing
`[Debug:` marker. -/
def pyDebugStrip (fc : LC) : LC :=
  let fc := if containsSub dbgInfoMark fc && containsSub mermaidMark fc then
              pyStrip (part1Split mermaidMark fc)
            else fc
  if containsSub dbgOpenMark fc then pyStrip (beforeFirst dbgOpenMark fc) else fc

/-- Fence removal of `sanitize_mermaid`: remove every ```` ```mermaid ````
token, then every ```` ``` ```` token, stripping after each step that
fires. -/
def fenceStrip (fc : LC) : LC :=
  let fc := if containsSub fenceMermaid fc then pyStrip (replaceSub fenceMermaid [] fc) else fc
  if containsSub fencePlain fc then pyStrip (replaceSub fencePlain [] fc) else fc

/-- The preprocessing of `sanitize_mermaid` before the declaration
check: debug stripping followed by fence removal. -/
def preClean (fc : LC) : LC := fenceStrip (pyDebugStrip fc)

/-- The recognized diagram declaration keywords, in the order the source
lists them. -/
def declKeywords : List LC :=
  [toLC "graph ", toLC "flowchart ", toLC "sequenceDiagram", toLC "classDiagram",
   toLC "stateDiagram", toLC "gantt", toLC "pie"]

/-- The literal fallback diagram assigned when no declaration keyword is
found and no `graph ` / `flowchart ` fragment is present (exact
triple-quoted literal of the source, indentation included). -/
def fallbackLiteral : LC :=
  toLC "\n            graph TD\n                A[\"Starting Position\"] --> B[\"Position 1\"]\n                A --> C[\"Position 2\"]\n                B --> D[\"Submission 1\"]\n                C --> E[\"Submission 2\"]\n            "

/-- Python `flow_chart[start_idx:]` for `start_idx = find(pat)` under a
guard that `pat` occurs: the suffix from the first occurrence on. -/
def fromFirst (pat l : LC) : LC :=
  match splitFirst pat l with
  | some (_, a) => pat ++ a
  | none => l

/-- The declaration-location step: if the (preprocessed) text does not
start with a recognized keyword, slice from the first `graph ` or
`flowchart ` occurrence, and otherwise substitute the fallback
literal. -/
def declLocate (fc : LC) : LC :=
  if declKeywords.any (fun k => k.isPrefixOf (pyStrip fc)) then fc
  else if containsSub (toLC "graph ") fc then pyStrip (fromFirst (toLC "graph ") fc)
  else if containsSub (toLC "flowchart ") fc then pyStrip (fromFirst (toLC "flowchart ") fc)
  else fallbackLiteral

/-- Quote the text of every complete `[...]` group, scanning left to
right and resuming after each closing bracket, as the sanitizer's
bracket loop does; a `[` with no closing `]` stops the loop with the
remainder unchanged.  Fuel decreases on every step. -/
def quoteBracketsF : Nat → LC → LC
  | 0, l => l
  | _ + 1, [] => []
  | f + 1, c :: t =>
    if c = '[' then
      match splitFirst (toLC "]") t with
      | some (label, after) =>
        let label := if quotedEnds label then label else '"' :: (label ++ ['"'])
        '[' :: (label ++ ']' :: quoteBracketsF f after)
      | none => c :: t
    else c :: quoteBracketsF f t

/-- Bracket-label quoting pass of the sanitizer. -/
def quoteBrackets (l : LC) : LC := quoteBracketsF (l.length + 1) l

/-- Quote the label of every complete `-->|...|` group, scanning left to
right and resuming after each closing pipe; a `-->|` with no closing `|`
stops the loop with the remainder unchanged. -/
def quoteArrowsF : Nat → LC → LC
  | 0, l => l
  | _ + 1, [] => []
  | f + 1, c :: t =>
    if (toLC "-->|").isPrefixOf (c :: t) then
      match splitFirst (toLC "|") ((c :: t).drop 4) with
      | some (label, after) =>
        let label := if quotedEnds label then label else '"' :: (label ++ ['"'])
        toLC "-->|" ++ (label ++ '|' :: quoteArrowsF f after)
      | none => c :: t
    else c :: quoteArrowsF f t

/-- Arrow-label quoting pass of the sanitizer. -/
def quoteArrows (l : LC) : LC := quoteArrowsF (l.length + 1) l

/-- Per-statement-line processing of the sanitizer: strip, drop empty
lines and stray declaration lines, indent by four spaces (the source
checks `startswith('    ')` first, which a stripped non-empty line never
satisfies), then quote bracket and arrow labels. -/
def processLine (l : LC) : Option LC :=
  let l := pyStrip l
  if l.isEmpty then none
  else if (toLC "graph ").isPrefixOf l || (toLC "flowchart ").isPrefixOf l then none
  else
    let l := if (toLC "    ").isPrefixOf l then l else toLC "    " ++ l
    some (quoteArrows (quoteBrackets l))

/-- Line re-emission: keep the first line when it is a `graph ` or
`flowchart ` declaration (stripped), otherwise emit `graph TD` and drop
the first line; process the remaining lines. -/
def emitLines (fc : LC) : LC :=
  let lines := splitLines (pyStrip fc)
  let first :=
    match lines with
    | [] => toLC "graph TD"
    | l0 :: _ =>
      if (toLC "graph ").isPrefixOf (pyStrip l0) || (toLC "flowchart ").isPrefixOf (pyStrip l0) then
        pyStrip l0
      else toLC "graph TD"
  List.intercalate (toLC "\n") (first :: (lines.drop 1).filterMap processLine)

/-- Final whitespace collapse of the sanitizer, in source order. -/
def collapseWhitespace (fc : LC) : LC :=
  replaceSub (toLC " |") (toLC "|")
    (replaceSub (toLC "-->| ") (toLC "-->|")
      (replaceSub (toLC " ]") (toLC "]")
        (replaceSub (toLC "[ ") (toLC "[") fc)))

/-- Everything of `sanitize_mermaid` except the final whitespace
collapse. -/
def sanitizeCore (fc : LC) : LC := emitLines (declLocate (preClean fc))

/-- `sanitize_mermaid` (jiu_jitsu_functions.py:344-467). -/
def sanitize_mermaid (fc : LC) : LC := collapseWhitespace (sanitizeCore fc)

/-! ## Pivot resolver (`next_move`, jiu_jitsu_functions.py:1161-1300) -/

/-- Left bracket token. -/
def lbTok : LC := toLC "["

/-- Right bracket token. -/
def rbTok : LC := toLC "]"

/-- Pipe token. -/
def pipeTok : LC := toLC "|"

/-- Labeled-arrow token. -/
def arrowTok : LC := toLC "-->|"

/-- Python `line[start_idx+1:end_idx]` for `start_idx = find('[')` and
`end_idx = find(']')`, both searched from the start of `l`; empty when
the `]` comes first, exactly as Python slicing gives. -/
def bracketSlice (l : LC) : LC :=
  let s := (beforeFirst lbTok l).length
  let e := (beforeFirst rbTok l).length
  (l.drop (s + 1)).take (e - (s + 1))

/-- Node-label extraction of `next_move`'s node scan on one line: the
stripped, unquoted text of the first `[...]` group, for lines containing
both `[` and `]`. -/
def nodeLabelOf (line : LC) : Option LC :=
  if containsSub lbTok line && containsSub rbTok line then
    some (unquote (pyStrip (bracketSlice line)))
  else none

/-- The node display labels `next_move`'s node scan sees, in document
order. -/
def nodeLabels (lines : List LC) : List LC := lines.filterMap nodeLabelOf

/-- Node scan of `next_move` (lines 1200-1216): first line containing
`[` and `]` whose stripped, unquoted bracket text contains the query
case-insensitively; returns `(node_id, node_text)`. -/
def nodeScanFind (move : LC) : List LC → Option (LC × LC)
  | [] => none
  | line :: rest =>
    match nodeLabelOf line with
    | some ntext =>
      if containsSub (lowerL move) (lowerL ntext) then
        some (pyStrip (beforeFirst lbTok line), ntext)
      else nodeScanFind move rest
    | none => nodeScanFind move rest

/-- Edge-label extraction of `next_move`'s edge scan on one line: the
stripped, unquoted arrow text for lines containing `-->|` with a later
`|`. -/
def edgeLabelOf (line : LC) : Option LC :=
  if containsSub arrowTok line && containsSub pipeTok (afterFirst arrowTok line) then
    some (unquote (pyStrip (beforeFirst pipeTok (afterFirst arrowTok line))))
  else none

/-- The edge labels `next_move`'s edge scan sees, in document order. -/
def edgeLabels (lines : List LC) : List LC := lines.filterMap edgeLabelOf

/-- Target extraction after an edge-label match (lines 1233-1251):
`line.split('|', 1)[1]`, then the segment after its first `|` (when it
has one), then the first `[...]` group of that part; `none` when that
part has no bracketed text, in which case the source falls through to
the next line without matching. -/
def edgeTargetExtract (line : LC) : Option (LC × LC) :=
  let a1 := afterFirst pipeTok line
  let tp := if containsSub pipeTok a1 then part1Split pipeTok a1 else a1
  if containsSub lbTok tp && containsSub rbTok tp then
    some (pyStrip (beforeFirst lbTok tp), unquote (pyStrip (bracketSlice tp)))
  else none

/-- Edge scan of `next_move` (lines 1219-1251): first line whose arrow
label contains the query case-insensitively and whose target part has
bracketed text; returns `(node_id, node_text)` of the target. -/
def edgeScanFind (move : LC) : List LC → Option (LC × LC)
  | [] => none
  | line :: rest =>
    match edgeLabelOf line with
    | some alab =>
      if containsSub (lowerL move) (lowerL alab) then
        match edgeTargetExtract line with
        | some r => some r
        | none => edgeScanFind move rest
      else edgeScanFind move rest
    | none => edgeScanFind move rest

/-- Context collection of `next_move` (lines 1253-1282) for a truthy
`node_id`: outbound lines (stripped line starts with the id and contains
`-->|`) contribute the bracketed text after the label pipe; other
labeled-arrow lines whose post-arrow text contains the id contribute the
bracketed text before the arrow.  Returns `none` for the source's
`IndexError` when an outbound line with brackets has no `|` after its
`-->|` (`split('|', 1)[1]` on a single part); without brackets that
line is skipped before `parts` is computed. -/
def collectContext (nid : LC) : List LC → Option (List LC)
  | [] => some []
  | line :: rest =>
    if nid.isPrefixOf (pyStrip line) && containsSub arrowTok line then
      if containsSub lbTok line && containsSub rbTok line then
        match splitFirst pipeTok (afterFirst arrowTok line) with
        | none => none
        | some (_, parts) =>
          if containsSub lbTok parts && containsSub rbTok parts then
            (collectContext nid rest).map (unquote (pyStrip (bracketSlice parts)) :: ·)
          else collectContext nid rest
      else collectContext nid rest
    else if containsSub arrowTok line && containsSub nid (afterFirst arrowTok line) then
      if containsSub lbTok line && containsSub rbTok line then
        let parts := beforeFirst arrowTok line
        if containsSub lbTok parts && containsSub rbTok parts then
          (collectContext nid rest).map (unquote (pyStrip (bracketSlice parts)) :: ·)
        else collectContext nid rest
      else collectContext nid rest
    else collectContext nid rest

/-- Python truthiness of the scan results: `None` and the empty string
are falsy. -/
def optTruthy : Option LC → Bool
  | none => false
  | some l => !l.isEmpty

/-- The `(new_position, node_id)` pair after `next_move`'s two scans:
the edge scan runs exactly when the node scan's position is falsy
(unset, or an empty matched label), and overwrites both variables when
it matches. -/
def nextMoveScan (move : LC) (lines : List LC) : Option LC × Option LC :=
  let fromNode : Option LC × Option LC :=
    match nodeScanFind move lines with
    | some (nid, lbl) => (some lbl, some nid)
    | none => (none, none)
  if optTruthy fromNode.1 then fromNode
  else
    match edgeScanFind move lines with
    | some (nid, lbl) => (some lbl, some nid)
    | none => fromNode

/-- `next_move` (jiu_jitsu_functions.py:1161-1300), up to the external
generation call: debug-strip the chart, scan for a node then an edge
match, collect context for a truthy `node_id`, and either return the
(debug-stripped) chart unchanged when the resolved position is falsy
(`Sum.inl`), or hand `(new_position, node_id, context_nodes)` to
`generate_flow_chart_with_start` (`Sum.inr`).  `none` models the
`IndexError` the context loop can raise. -/
def next_move (fc move : LC) : Option (LC ⊕ (LC × LC × List LC)) :=
  let fc := pyDebugStrip fc
  let lines := splitLines (pyStrip fc)
  let pn := nextMoveScan move lines
  let ctxQ : Option (List LC) :=
    match pn.2 with
    | some nid => if nid.isEmpty then some [] else collectContext nid lines
    | none => some []
  match ctxQ with
  | none => none
  | some ctx =>
    if optTruthy pn.1 then some (Sum.inr (pn.1.getD [], pn.2.getD [], ctx))
    else some (Sum.inl fc)

/-! ## Reply classification of `generate_flow_chart_with_start`
(jiu_jitsu_functions.py:222-249) -/

/-- The deny-list of placeholder literals, in source order. -/
def placeholderTerms : List LC :=
  [toLC "Position 1", toLC "Position 2", toLC "Submission 1", toLC "Submission 2",
   toLC "Default Graph"]

/-- Reply cleanup of `generate_flow_chart_with_start`: drop a trailing
`[Debug:` section, then, when the reply contains a fence, keep the first
fence-delimited part containing `graph` (stripped); when no part
contains `graph` the reply is left as it was. -/
def cleanReply (reply : LC) : LC :=
  let r := if containsSub dbgOpenMark reply then pyStrip (beforeFirst dbgOpenMark reply) else reply
  if containsSub fencePlain r then
    match (splitAll fencePlain r).find? (fun p => containsSub (toLC "graph") p) with
    | some p => pyStrip p
    | none => r
  else r

/-- The two rejection kinds of `generate_flow_chart_with_start`:
the reply does not contain the starting position verbatim, or it
contains a deny-listed placeholder.  The source returns the
corresponding `Error: ...` strings. -/
inductive ReplyError
  | missingStart
  | placeholder (term : LC)
deriving DecidableEq

/-- Classification of a completion reply by
`generate_flow_chart_with_start` (lines 226-249): clean the reply, then
reject when the starting position is absent, then reject on the first
deny-listed placeholder found; otherwise accept (the source wraps the
accepted text in a `DEBUG INFO:`/`MERMAID:` envelope). -/
def classify_reply (startingPosition reply : LC) : Except ReplyError LC :=
  let m := cleanReply reply
  if !containsSub startingPosition m then .error .missingStart
  else
    match placeholderTerms.find? (fun t => containsSub t m) with
    | some t => .error (.placeholder t)
    | none => .ok m

/-! ## Strategy formatter (`format_strategy_for_display`,
jiu_jitsu_functions.py:1776-1860) -/

/-- Marker detection used for `has_bullets`: stripped line starts with
`•`, `-`, `*`, `1.`, `2.` or `3.`. -/
def bulletDetect (l : LC) : Bool :=
  [toLC "•", toLC "-", toLC "*", toLC "1.", toLC "2.", toLC "3."].any
    (fun m => m.isPrefixOf l)

/-- Marker test of the point-building loop: `•`, `-`, `*`, or `1.`
through `5.`. -/
def bulletStarts (l : LC) : Bool :=
  [toLC "•", toLC "-", toLC "*", toLC "1.", toLC "2.", toLC "3.", toLC "4.", toLC "5."].any
    (fun m => m.isPrefixOf l)

/-- Numbered-marker test of the loop. -/
def numStarts (l : LC) : Bool :=
  [toLC "1.", toLC "2.", toLC "3.", toLC "4.", toLC "5."].any (fun m => m.isPrefixOf l)

/-- Marker removal: numbered lines keep the text after the first `.`
(`split('.', 1)[1].strip()`), bullet lines drop one character
(`line[1:].strip()`). -/
def stripBullet (l : LC) : LC :=
  if numStarts l then pyStrip (afterFirst (toLC ".") l)
  else pyStrip (l.drop 1)

/-- The point-building loop of the bullet branch: marker lines start a
new point (saving a non-empty current point), other non-empty lines are
appended to the current point with a separating space (or start it when
none is open). -/
def strategyFold : List LC × LC → List LC → List LC × LC
  | st, [] => st
  | (pts, cur), line :: rest =>
    let l := pyStrip line
    if l.isEmpty then strategyFold (pts, cur) rest
    else if bulletStarts l then
      strategyFold ((if !cur.isEmpty then pts ++ [cur] else pts), stripBullet l) rest
    else if !cur.isEmpty then strategyFold (pts, cur ++ ' ' :: l) rest
    else strategyFold (pts, l) rest

/-- The full point list of the bullet branch (the trailing current point
is appended when non-empty). -/
def strategyPointsOfLines (lines : List LC) : List LC :=
  let st := strategyFold ([], []) lines
  if !st.2.isEmpty then st.1 ++ [st.2] else st.1

/-- The structured points `format_strategy_for_display` renders as
`<li>` items: fence tokens removed and text stripped, then, when any
line carries a bullet or number marker, the point-building loop;
`none` models the non-bullet branches (paragraph and line fallbacks),
which render without building a point list. -/
def formatStrategyPoints (t : LC) : Option (List LC) :=
  let t := pyStrip (replaceSub fencePlain [] t)
  if (splitLines t).any (fun l => bulletDetect (pyStrip l)) then
    some (strategyPointsOfLines (splitLines t))
  else none

/-! ## Spec-side checkers

These definitions follow the specification's wording, not the source:
they state what the spec promises, so that theorems can compare the
source-derived functions against them. -/

/-- Modelled from the spec: a label is wrapped in exactly one pair of
double quotes — it begins and ends with a double quote and contains no
further double quote between them (never zero pairs, never nested). -/
def labelOnePair (t : LC) : Bool :=
  match t with
  | '"' :: rest =>
    match rest.reverse with
    | '"' :: mid => !mid.contains '"'
    | _ => false
  | _ => false

/-- Modelled from the spec: every complete bracketed node label in the
text is wrapped in exactly one pair of double quotes (scanning left to
right, each `[` paired with the next `]`). -/
def bracketClosureF : Nat → LC → Bool
  | 0, _ => true
  | _ + 1, [] => true
  | f + 1, c :: t =>
    if c = '[' then
      match splitFirst rbTok t with
      | some (label, after) => labelOnePair label && bracketClosureF f after
      | none => true
    else bracketClosureF f t

/-- Modelled from the spec: every complete `-->|...|` edge label in the
text is wrapped in exactly one pair of double quotes. -/
def arrowClosureF : Nat → LC → Bool
  | 0, _ => true
  | _ + 1, [] => true
  | f + 1, c :: t =>
    if arrowTok.isPrefixOf (c :: t) then
      match splitFirst pipeTok ((c :: t).drop 4) with
      | some (label, after) => labelOnePair label && arrowClosureF f after
      | none => true
    else arrowClosureF f t

/-- Modelled from the spec: the quoting-closure property of §8 — every
bracketed node label and every pipe-delimited edge label is wrapped in
exactly one pair of double quotes. -/
def quotingClosure (t : LC) : Bool :=
  bracketClosureF (t.length + 1) t && arrowClosureF (t.length + 1) t

/-- Any recognized declaration keyword occurs somewhere in the text. -/
def containsAnyKeyword (t : LC) : Bool := declKeywords.any (fun k => containsSub k t)

/-- Modelled from the spec: a pure node-definition line (no arrow)
yields `(nodeId, displayLabel)`. -/
def specNodeDef (line : LC) : Option (LC × LC) :=
  if containsSub (toLC "-->") line then none
  else if containsSub lbTok line && containsSub rbTok line then
    some (pyStrip (beforeFirst lbTok line), unquote (pyStrip (bracketSlice line)))
  else none

/-- Modelled from the spec: an edge line yields its source part and its
target part (the text after `-->`, with an optional `|label|` removed). -/
def specEdgeOf (line : LC) : Option (LC × LC) :=
  if containsSub (toLC "-->") line then
    let src := beforeFirst (toLC "-->") line
    let rest := pyStrip (afterFirst (toLC "-->") line)
    let tgt := match rest with
               | '|' :: r => pyStrip (afterFirst pipeTok r)
               | _ => rest
    some (src, tgt)
  else none

/-- Modelled from the spec: the node id named by a source or target part
(the text before its bracketed label when one is present). -/
def specPartId (part : LC) : LC :=
  if containsSub lbTok part then pyStrip (beforeFirst lbTok part) else pyStrip part

/-- Modelled from the spec: the display label carried by a source or
target part — its inline bracketed text when present, else the label
from a node-definition line, else the raw id. -/
def specPartLabel (defs : List (LC × LC)) (part : LC) : LC :=
  if containsSub lbTok part && containsSub rbTok part then unquote (pyStrip (bracketSlice part))
  else
    match defs.find? (fun d => d.1 = pyStrip part) with
    | some d => d.2
    | none => pyStrip part

/-- Modelled from the spec (§4.2): the context labels of a matched node
id — the display labels of every node directly reachable from it
(outbound) followed by those of every node with an edge into it
(inbound). -/
def specNeighborLabels (chart nid : LC) : List LC :=
  let lines := splitLines (pyStrip chart)
  let defs := lines.filterMap specNodeDef
  let edges := lines.filterMap specEdgeOf
  edges.filterMap (fun e => if specPartId e.1 = nid then some (specPartLabel defs e.2) else none)
    ++ edges.filterMap (fun e => if specPartId e.2 = nid then some (specPartLabel defs e.1) else none)

/-- The first line of a text (up to the first newline). -/
def firstLineOf (t : LC) : LC := beforeFirst (toLC "\n") t

/-! ## Bridging lemmas -/

/-- `containsSub` decides substring occurrence. -/
theorem containsSub_eq_true_iff (pat l : LC) : containsSub pat l = true ↔ pat <:+: l := by
  induction l with
  | nil =>
    simp [containsSub, List.isPrefixOf_iff_prefix]
  | cons c t ih =>
    rw [containsSub, Bool.or_eq_true, List.isPrefixOf_iff_prefix, ih, List.infix_cons_iff]

/-- Stripping yields a contiguous piece of the original text. -/
theorem pyStrip_isInfix (l : LC) : pyStrip l <:+: l := by
  have hx : l.dropWhile pyIsSpace <:+ l := List.dropWhile_suffix pyIsSpace
  have h2 : ((l.dropWhile pyIsSpace).reverse.dropWhile pyIsSpace).reverse <+:
      l.dropWhile pyIsSpace := by
    rw [← List.reverse_suffix]
    simpa using List.dropWhile_suffix (l := (l.dropWhile pyIsSpace).reverse) pyIsSpace
  exact (h2.isInfix).trans hx.isInfix

/-- A keyword that starts the stripped text occurs in the text. -/
theorem containsSub_of_strip_startswith (k s : LC)
    (h : k.isPrefixOf (pyStrip s) = true) : containsSub k s = true := by
  rw [containsSub_eq_true_iff]
  exact (( List.isPrefixOf_iff_prefix.mp h).isInfix).trans (pyStrip_isInfix s)

/-! ## Structural lemmas about the string primitives

These support the universal statements of C1, C2, C7 and C10: the
specification of `splitFirst`, fuel irrelevance of the quoting passes,
identity of `replace` on pattern-free text, and the line structure of
`splitLines` and `List.intercalate`. -/

/-- Specification of `splitFirst`: a successful split decomposes the
text around the pattern. -/
theorem splitFirst_eq_append (pat : LC) : ∀ (l b a : LC),
    splitFirst pat l = some (b, a) → l = b ++ pat ++ a := by
  intro l
  induction l with
  | nil =>
    intro b a h
    rw [splitFirst] at h
    by_cases hp : pat.isPrefixOf ([] : LC) = true
    · have hpat : pat = [] := by
        cases pat with
        | nil => rfl
        | cons x t => simp [List.isPrefixOf] at hp
      rw [if_pos hp] at h
      simp only [Option.some_inj, Prod.mk.injEq] at h
      obtain ⟨hb, ha⟩ := h
      subst hb
      subst ha
      simp [hpat]
    · rw [if_neg hp] at h
      cases h
  | cons c t ih =>
    intro b a h
    rw [splitFirst] at h
    by_cases hp : pat.isPrefixOf (c :: t) = true
    · rw [if_pos hp] at h
      simp only [Option.some_inj, Prod.mk.injEq] at h
      obtain ⟨hb, ha⟩ := h
      subst hb
      subst ha
      have := List.prefix_iff_eq_append.mp ( List.isPrefixOf_iff_prefix.mp hp)
      simpa using this.symm
    · rw [if_neg hp] at h
      cases hs : splitFirst pat t with
      | none => rw [hs] at h; cases h
      | some p =>
        obtain ⟨b2, a2⟩ := p
        rw [hs] at h
        simp only [Option.some_inj, Prod.mk.injEq] at h
        obtain ⟨hb, ha⟩ := h
        subst hb
        subst ha
        have ht := ih b2 a2 hs
        simp [ht]

/-- `splitFirst` on an absent single character finds nothing. -/
theorem splitFirst_none_of_not_mem (c : Char) : ∀ (l : LC), c ∉ l →
    splitFirst [c] l = none := by
  intro l
  induction l with
  | nil => intro h; rfl
  | cons x t ih =>
    intro h
    have hx : x ≠ c := fun he => h (he ▸ List.mem_cons_self x t)
    have ht : c ∉ t := fun hm => h (List.mem_cons_of_mem x hm)
    rw [splitFirst, if_neg (by simp [List.isPrefixOf]; exact fun he => hx he.symm), ih ht]

/-- `splitFirst` finds the first occurrence of a single character. -/
theorem splitFirst_cons_of_not_mem (c : Char) : ∀ (a b : LC), c ∉ a →
    splitFirst [c] (a ++ c :: b) = some (a, b) := by
  intro a
  induction a with
  | nil =>
    intro b h
    rw [List.nil_append, splitFirst, if_pos (by simp [List.isPrefixOf])]
    rfl
  | cons x a2 ih =>
    intro b h
    have hx : x ≠ c := fun he => h (he ▸ List.mem_cons_self x a2)
    have ha : c ∉ a2 := fun hm => h (List.mem_cons_of_mem x hm)
    rw [List.cons_append, splitFirst,
      if_neg (by simp [List.isPrefixOf]; exact fun he => hx he.symm), ih b ha]

/-- `replace` is the identity on text not containing the pattern. -/
theorem replaceSubF_eq_self_of_not_contains (pat rep : LC) : ∀ (f : Nat) (l : LC),
    containsSub pat l = false → replaceSubF pat rep f l = l := by
  intro f
  induction f with
  | zero => intro l h; rfl
  | succ f ih =>
    intro l h
    cases l with
    | nil => rfl
    | cons c t =>
      rw [containsSub, Bool.or_eq_false_iff] at h
      rw [replaceSubF, if_neg (by simp [h.1]), ih t h.2]

/-- Python-level `replace` is the identity on pattern-free text. -/
theorem replaceSub_eq_self_of_not_contains (pat rep l : LC)
    (h : containsSub pat l = false) : replaceSub pat rep l = l :=
  replaceSubF_eq_self_of_not_contains pat rep (l.length + 1) l h

/-- The whitespace collapse is the identity on text containing none of
its four patterns. -/
theorem collapseWhitespace_eq_self (l : LC)
    (h1 : containsSub (toLC "[ ") l = false)
    (h2 : containsSub (toLC " ]") l = false)
    (h3 : containsSub (toLC "-->| ") l = false)
    (h4 : containsSub (toLC " |") l = false) :
    collapseWhitespace l = l := by
  rw [collapseWhitespace,
    replaceSub_eq_self_of_not_contains _ _ _ h1,
    replaceSub_eq_self_of_not_contains _ _ _ h2,
    replaceSub_eq_self_of_not_contains _ _ _ h3,
    replaceSub_eq_self_of_not_contains _ _ _ h4]

/-- A label without a double quote fails Python's
`startswith('"') and endswith('"')` test. -/
theorem quotedEnds_eq_false_of_not_mem (l : LC) (h : '"' ∉ l) :
    quotedEnds l = false := by
  cases l with
  | nil => rfl
  | cons c t =>
    have hc : c ≠ '"' := fun he => h (he ▸ List.mem_cons_self c t)
    rw [quotedEnds]
    split
    all_goals simp_all

/-- Wrapping a quote-free label yields exactly one pair of quotes. -/
theorem labelOnePair_wrap (lbl : LC) (h : '"' ∉ lbl) :
    labelOnePair ('"' :: (lbl ++ ['"'])) = true := by
  have hr : (lbl ++ ['"']).reverse = '"' :: lbl.reverse := by simp
  have hc : lbl.reverse.contains '"' = false := by
    simp [List.contains, List.elem_eq_mem, h]
  simp [labelOnePair, hr, hc]
  exact h

/-- The bracket-quoting pass does not depend on the fuel, as long as the
fuel exceeds the input length. -/
theorem quoteBracketsF_fuel : ∀ (f g : Nat) (l : LC), l.length < f → l.length < g →
    quoteBracketsF f l = quoteBracketsF g l := by
  intro f
  induction f with
  | zero => intro g l hf hg; exact absurd hf (Nat.not_lt_zero _)
  | succ f ih =>
    intro g l hf hg
    cases g with
    | zero => exact absurd hg (Nat.not_lt_zero _)
    | succ g =>
      cases l with
      | nil => rfl
      | cons c t =>
        have hlen : t.length + 1 < f + 1 := by simpa using hf
        have hleng : t.length + 1 < g + 1 := by simpa using hg
        by_cases hc : c = '['
        · subst hc
          cases hs : splitFirst (toLC "]") t with
          | none => simp [quoteBracketsF, hs]
          | some p =>
            obtain ⟨label, after⟩ := p
            have hd : t = label ++ [']'] ++ after := by
              simpa [show toLC "]" = [']'] from rfl] using
                splitFirst_eq_append (toLC "]") t label after hs
            have hl := congrArg List.length hd
            simp at hl
            simp [quoteBracketsF, hs]
            rw [ih g after (by omega) (by omega)]
        · simp [quoteBracketsF, hc]
          exact ih g t (by omega) (by omega)

/-- The arrow-quoting pass does not depend on the fuel, as long as the
fuel exceeds the input length. -/
theorem quoteArrowsF_fuel : ∀ (f g : Nat) (l : LC), l.length < f → l.length < g →
    quoteArrowsF f l = quoteArrowsF g l := by
  intro f
  induction f with
  | zero => intro g l hf hg; exact absurd hf (Nat.not_lt_zero _)
  | succ f ih =>
    intro g l hf hg
    cases g with
    | zero => exact absurd hg (Nat.not_lt_zero _)
    | succ g =>
      cases l with
      | nil => rfl
      | cons c t =>
        have hlen : t.length + 1 < f + 1 := by simpa using hf
        have hleng : t.length + 1 < g + 1 := by simpa using hg
        by_cases hp : (toLC "-->|").isPrefixOf (c :: t) = true
        · cases hs : splitFirst (toLC "|") ((c :: t).drop 4) with
          | none =>
            have hs3 : splitFirst (toLC "|") (List.drop 3 t) = none := by
              simpa using hs
            simp [quoteArrowsF, hp, hs3]
          | some p =>
            obtain ⟨label, after⟩ := p
            have hs3 : splitFirst (toLC "|") (List.drop 3 t) = some (label, after) := by
              simpa using hs
            have hd : (c :: t).drop 4 = label ++ ['|'] ++ after := by
              simpa [show toLC "|" = ['|'] from rfl] using
                splitFirst_eq_append (toLC "|") ((c :: t).drop 4) label after hs
            have hl := congrArg List.length hd
            rw [List.length_drop] at hl
            simp at hl
            simp [quoteArrowsF, hp, hs3]
            rw [ih g after (by omega) (by omega)]
        · simp [quoteArrowsF, hp]
          exact ih g t (by omega) (by omega)

/-- The bracket-quoting pass copies a non-bracket head character and
continues. -/
theorem quoteBrackets_cons_ne (c : Char) (l : LC) (h : c ≠ '[') :
    quoteBrackets (c :: l) = c :: quoteBrackets l := by
  show quoteBracketsF ((c :: l).length + 1) (c :: l) = _
  simp [quoteBracketsF, h, quoteBrackets]

/-- The bracket-quoting pass wraps a quote-free bracketed label in
exactly one pair of quotes and resumes after the closing bracket. -/
theorem quoteBrackets_group (lbl rest : LC) (h1 : ']' ∉ lbl) (h2 : '"' ∉ lbl) :
    quoteBrackets ('[' :: (lbl ++ ']' :: rest)) =
      '[' :: ('"' :: (lbl ++ '"' :: ']' :: quoteBrackets rest)) := by
  have hs : splitFirst (toLC "]") (lbl ++ ']' :: rest) = some (lbl, rest) := by
    rw [show toLC "]" = [']'] from rfl]
    exact splitFirst_cons_of_not_mem ']' lbl rest h1
  have hq : quotedEnds lbl = false := quotedEnds_eq_false_of_not_mem lbl h2
  have hlen : ('[' :: (lbl ++ ']' :: rest)).length = lbl.length + rest.length + 2 := by
    simp only [List.length_cons, List.length_append]
    omega
  show quoteBracketsF (('[' :: (lbl ++ ']' :: rest)).length + 1) _ = _
  rw [hlen]
  simp only [quoteBracketsF, hs, hq, if_true, if_false, Bool.false_eq_true, reduceIte]
  rw [quoteBracketsF_fuel (lbl.length + rest.length + 2) (rest.length + 1) rest
    (by omega) (by omega)]
  simp [quoteBrackets]

/-- The bracket-quoting pass over a bracket-free prefix. -/
theorem quoteBrackets_append_free (id l : LC) (h : '[' ∉ id) :
    quoteBrackets (id ++ l) = id ++ quoteBrackets l := by
  induction id with
  | nil => simp
  | cons c t ih =>
    have hc : c ≠ '[' := fun he => h (he ▸ List.mem_cons_self c t)
    have ht : '[' ∉ t := fun hm => h (List.mem_cons_of_mem c hm)
    rw [List.cons_append, quoteBrackets_cons_ne c (t ++ l) hc,
      ih ht, List.cons_append]

/-- The arrow-quoting pass wraps a quote-free arrow label in exactly one
pair of quotes and resumes after the closing pipe. -/
theorem quoteArrows_group (lbl rest : LC) (h1 : '|' ∉ lbl) (h2 : '"' ∉ lbl) :
    quoteArrows ('-' :: '-' :: '>' :: '|' :: (lbl ++ '|' :: rest)) =
      '-' :: '-' :: '>' :: '|' :: ('"' :: (lbl ++ '"' :: '|' :: quoteArrows rest)) := by
  have harr : toLC "-->|" = ['-', '-', '>', '|'] := rfl
  have hp : (toLC "-->|").isPrefixOf ('-' :: '-' :: '>' :: '|' :: (lbl ++ '|' :: rest)) = true := by
    rw [ List.isPrefixOf_iff_prefix]
    exact ⟨lbl ++ '|' :: rest, rfl⟩
  have hs : splitFirst (toLC "|") (lbl ++ '|' :: rest) = some (lbl, rest) := by
    rw [show toLC "|" = ['|'] from rfl]
    exact splitFirst_cons_of_not_mem '|' lbl rest h1
  have hq : quotedEnds lbl = false := quotedEnds_eq_false_of_not_mem lbl h2
  have hlen : ('-' :: '-' :: '>' :: '|' :: (lbl ++ '|' :: rest)).length =
      lbl.length + rest.length + 5 := by
    simp only [List.length_cons, List.length_append]
    omega
  show quoteArrowsF (('-' :: '-' :: '>' :: '|' :: (lbl ++ '|' :: rest)).length + 1) _ = _
  rw [hlen]
  simp only [quoteArrowsF]
  rw [if_pos hp,
    show ('-' :: '-' :: '>' :: '|' :: (lbl ++ '|' :: rest)).drop 4 = lbl ++ '|' :: rest from rfl]
  simp only [hs, hq, Bool.false_eq_true, reduceIte]
  rw [quoteArrowsF_fuel (lbl.length + rest.length + 5) (rest.length + 1) rest
    (by omega) (by omega)]
  simp [quoteArrows, harr]

/-- The arrow-quoting pass copies a head character that cannot start an
arrow token and continues. -/
theorem quoteArrows_cons_ne (c : Char) (l : LC) (h : c ≠ '-') :
    quoteArrows (c :: l) = c :: quoteArrows l := by
  have hp : (toLC "-->|").isPrefixOf (c :: l) = false := by
    rw [show toLC "-->|" = ['-', '-', '>', '|'] from rfl]
    simp [List.isPrefixOf]
    intro he
    exact absurd he.symm h
  show quoteArrowsF ((c :: l).length + 1) (c :: l) = _
  simp [quoteArrowsF, hp, quoteArrows]

/-- The arrow-quoting pass over a dash-free prefix. -/
theorem quoteArrows_append_free (id l : LC) (h : '-' ∉ id) :
    quoteArrows (id ++ l) = id ++ quoteArrows l := by
  induction id with
  | nil => simp
  | cons c t ih =>
    have hc : c ≠ '-' := fun he => h (he ▸ List.mem_cons_self c t)
    have ht : '-' ∉ t := fun hm => h (List.mem_cons_of_mem c hm)
    rw [List.cons_append, quoteArrows_cons_ne c (t ++ l) hc, ih ht, List.cons_append]

/-- `splitLines` never returns an empty list of parts. -/
theorem splitLines_ne_nil (l : LC) : splitLines l ≠ [] := by
  induction l with
  | nil => simp [splitLines]
  | cons c t ih =>
    simp only [splitLines]
    split
    · simp
    · split
      · simp
      · simp

/-- No part produced by `splitLines` contains a newline. -/
theorem splitLines_no_newline (l : LC) : ∀ p ∈ splitLines l, '\n' ∉ p := by
  induction l with
  | nil =>
    intro p hp
    simp [splitLines] at hp
    simp [hp]
  | cons c t ih =>
    intro p hp
    simp only [splitLines] at hp
    by_cases hc : c = '\n'
    · rw [if_pos hc] at hp
      rcases List.mem_cons.mp hp with he | hm
      · simp [he]
      · exact ih p hm
    · rw [if_neg hc] at hp
      cases hm : splitLines t with
      | nil => exact absurd hm (splitLines_ne_nil t)
      | cons h0 r =>
        rw [hm] at hp
        rcases List.mem_cons.mp hp with he | hmem
        · subst he
          intro hx
          rcases List.mem_cons.mp hx with he2 | hx2
          · exact hc he2.symm
          · exact ih h0 (hm ▸ List.mem_cons_self h0 r) hx2
        · exact ih p (hm ▸ List.mem_cons_of_mem h0 hmem)

/-- The first line of an intercalation is its first part, when that part
has no newline. -/
theorem firstLineOf_intercalate (a : LC) (r : List LC) (h : '\n' ∉ a) :
    firstLineOf (List.intercalate (toLC "\n") (a :: r)) = a := by
  cases r with
  | nil =>
    have h1 : List.intercalate (toLC "\n") [a] = a := by
      simp [List.intercalate, List.intersperse]
    rw [h1, firstLineOf, beforeFirst, show toLC "\n" = ['\n'] from rfl,
      splitFirst_none_of_not_mem '\n' a h]
  | cons b r2 =>
    have h1 : List.intercalate (toLC "\n") (a :: b :: r2) =
        a ++ toLC "\n" ++ List.intercalate (toLC "\n") (b :: r2) := by
      simp [List.intercalate, List.intersperse]
    rw [h1, firstLineOf, beforeFirst, show toLC "\n" = ['\n'] from rfl,
      List.append_assoc, List.cons_append, List.nil_append,
      splitFirst_cons_of_not_mem '\n' a _ h]

/-- Computation rule for the line re-emission, given the split of the
incoming text into lines. -/
theorem emitLines_eq (fc l0 : LC) (rest : List LC)
    (hl : splitLines (pyStrip fc) = l0 :: rest) :
    emitLines fc = List.intercalate (toLC "\n")
      ((if (toLC "graph ").isPrefixOf (pyStrip l0) ||
            (toLC "flowchart ").isPrefixOf (pyStrip l0) then pyStrip l0
        else toLC "graph TD") :: rest.filterMap processLine) := by
  rw [emitLines, hl]
  rfl

/-- The first line emitted by the sanitizer's line re-emission always
starts with `graph ` or `flowchart `. -/
theorem emitLines_first_decl (fc : LC) :
    ((toLC "graph ").isPrefixOf (firstLineOf (emitLines fc)) ||
     (toLC "flowchart ").isPrefixOf (firstLineOf (emitLines fc))) = true := by
  cases hl : splitLines (pyStrip fc) with
  | nil => exact absurd hl (splitLines_ne_nil _)
  | cons l0 rest =>
    rw [emitLines_eq fc l0 rest hl]
    by_cases hc : ((toLC "graph ").isPrefixOf (pyStrip l0) ||
        (toLC "flowchart ").isPrefixOf (pyStrip l0)) = true
    · have hnn : '\n' ∉ pyStrip l0 := by
        intro hmem
        exact splitLines_no_newline (pyStrip fc) l0 (hl ▸ List.mem_cons_self l0 rest)
          ((pyStrip_isInfix l0).sublist.subset hmem)
      rw [if_pos hc, firstLineOf_intercalate _ _ hnn]
      exact hc
    · have hnn : '\n' ∉ toLC "graph TD" := by decide
      rw [if_neg hc, firstLineOf_intercalate _ _ hnn]
      decide

/-! ## Claim C5 -/

/-- Claim C5, counterexample.  The claim asserts that every input with no
recognized declaration keyword anywhere yields the literal fallback
graph.  The input `gra```ph TD` contains no keyword, but fence removal
glues `gra` and `ph TD` into `graph TD`, so sanitization returns
`graph TD` instead of the fallback graph. -/
theorem c5_keyword_from_fence_seam :
    containsAnyKeyword (toLC "gra```ph TD") = false ∧
    sanitize_mermaid (toLC "gra```ph TD") = toLC "graph TD" ∧
    toLC "graph TD" ≠ collapseWhitespace (emitLines fallbackLiteral) := by
  refine ⟨by decide, by decide, by decide⟩

/-- Claim C5, amended: for every input with no recognized declaration
keyword occurring even after debug-section and fence removal
(`preClean`), sanitization returns the literal 4-node fallback graph
verbatim. -/
theorem c5_fallback_on_no_keyword (x : LC)
    (h : containsAnyKeyword (preClean x) = false) :
    sanitize_mermaid x =
      toLC "graph TD\n    A[\"Starting Position\"] --> B[\"Position 1\"]\n    A --> C[\"Position 2\"]\n    B --> D[\"Submission 1\"]\n    C --> E[\"Submission 2\"]" := by
  have hall : ∀ k ∈ declKeywords, containsSub k (preClean x) = false := by
    intro k hk
    have := List.any_eq_false.mp h k hk
    simpa using this
  have hAny : (declKeywords.any (fun k => k.isPrefixOf (pyStrip (preClean x)))) = false := by
    apply List.any_eq_false.mpr
    intro k hk hpre
    have hc := containsSub_of_strip_startswith k (preClean x) hpre
    rw [hall k hk] at hc
    exact Bool.false_ne_true hc
  have hg : containsSub (toLC "graph ") (preClean x) = false :=
    hall _ (by simp [declKeywords])
  have hf : containsSub (toLC "flowchart ") (preClean x) = false :=
    hall _ (by simp [declKeywords])
  have hd : declLocate (preClean x) = fallbackLiteral := by
    rw [declLocate, hAny, hg, hf]
    simp
  show collapseWhitespace (emitLines (declLocate (preClean x))) = _
  rw [hd]
  decide

/-- Claim C5, witness: the spec's own example input `hello world`. -/
theorem c5_witness :
    sanitize_mermaid (toLC "hello world") =
      toLC "graph TD\n    A[\"Starting Position\"] --> B[\"Position 1\"]\n    A --> C[\"Position 2\"]\n    B --> D[\"Submission 1\"]\n    C --> E[\"Submission 2\"]" :=
  c5_fallback_on_no_keyword _ (by decide)

/-! ## Claim C1 -/

/-- Claim C1, counterexample.  Sanitization is not idempotent: on
`graph TD\nA --> |go| B` the first run's whitespace collapse turns
`--> |go|` into the labeled arrow `-->|go|` without quoting it, and the
second run then quotes the label, changing the text. -/
theorem c1_idempotence_fails :
    sanitize_mermaid (sanitize_mermaid (toLC "graph TD\nA --> |go| B")) ≠
      sanitize_mermaid (toLC "graph TD\nA --> |go| B") := by decide

/-- Claim C1, amended: sanitization is not idempotent in general — the
whitespace collapse, which runs after the quoting passes, can both
manufacture an unquoted edge label that the next run quotes and re-fire
on stacked spaces, so no later pass restores stability.  What holds
instead: the collapse step is the identity on every text containing
none of its four patterns `[ `, ` ]`, `-->| `, ` |` (universal clause);
on the counterexample input the result stabilizes at the second
application; and at the fallback-producing input `hello world` a second
run is a no-op. -/
theorem c1_sanitize_stabilizes :
    (∀ l : LC, containsSub (toLC "[ ") l = false → containsSub (toLC " ]") l = false →
      containsSub (toLC "-->| ") l = false → containsSub (toLC " |") l = false →
      collapseWhitespace l = l) ∧
    sanitize_mermaid (sanitize_mermaid (sanitize_mermaid (toLC "graph TD\nA --> |go| B"))) =
      sanitize_mermaid (sanitize_mermaid (toLC "graph TD\nA --> |go| B")) ∧
    sanitize_mermaid (sanitize_mermaid (toLC "hello world")) =
      sanitize_mermaid (toLC "hello world") := by
  refine ⟨collapseWhitespace_eq_self, by decide, by decide⟩

/-- Claim C1, witness: the collapse-identity clause at a concrete
pattern-free sanitized chart. -/
theorem c1_witness :
    collapseWhitespace (toLC "graph TD\n    A[\"ok\"] --> B") =
      toLC "graph TD\n    A[\"ok\"] --> B" :=
  c1_sanitize_stabilizes.1 _ (by decide) (by decide) (by decide) (by decide)

/-! ## Claim C2 -/

/-- Claim C2, counterexample.  The claim asserts the quoting-closure
property of every sanitized output.  On `graph TD\nA --> |go| B` the
output contains the edge label `go` between `-->|` and `|` with no
quotes at all: the whitespace collapse runs after the quoting passes and
creates the unquoted labeled arrow. -/
theorem c2_quoting_closure_fails :
    quotingClosure (sanitize_mermaid (toLC "graph TD\nA --> |go| B")) = false ∧
    sanitize_mermaid (toLC "graph TD\nA --> |go| B") = toLC "graph TD\n    A -->|go| B" := by
  refine ⟨by decide, by decide⟩

/-- Claim C2, amended: each quoting pass wraps every quote-free label
in exactly one pair of double quotes, universally — for any bracket-free
prefix, any bracketed label without `]` or `"`, and any remainder, the
bracket pass emits the label wrapped once and resumes after the closing
bracket (first clause), and likewise the arrow pass for any dash-free
prefix and any pipe-and-quote-free arrow label (second clause).  The
claim as stated fails because a label that begins and ends with a double
quote — including the degenerate single-character label `"` — passes
the source's startswith/endswith test and is kept verbatim, and because
the whitespace collapse after quoting can produce wholly unquoted edge
labels; the full closure does hold of the spec's end-to-end example
(third clause). -/
theorem c2_quoting_closure_precollapse :
    (∀ id lbl rest : LC, '[' ∉ id → ']' ∉ lbl → '"' ∉ lbl →
      quoteBrackets (id ++ '[' :: (lbl ++ ']' :: rest)) =
        id ++ '[' :: ('"' :: (lbl ++ '"' :: ']' :: quoteBrackets rest)) ∧
      labelOnePair ('"' :: (lbl ++ ['"'])) = true) ∧
    (∀ id lbl rest : LC, '-' ∉ id → '|' ∉ lbl → '"' ∉ lbl →
      quoteArrows (id ++ '-' :: '-' :: '>' :: '|' :: (lbl ++ '|' :: rest)) =
        id ++ '-' :: '-' :: '>' :: '|' :: ('"' :: (lbl ++ '"' :: '|' :: quoteArrows rest)) ∧
      labelOnePair ('"' :: (lbl ++ ['"'])) = true) ∧
    quotingClosure (sanitize_mermaid
      (toLC "DEBUG INFO:\nstuff\nMERMAID:\ngraph TD\nA[Guard] -->|pass| B[Side Control]")) = true := by
  refine ⟨?_, ?_, by decide⟩
  · intro id lbl rest hid h1 h2
    refine ⟨?_, labelOnePair_wrap lbl h2⟩
    rw [quoteBrackets_append_free id _ hid, quoteBrackets_group lbl rest h1 h2]
  · intro id lbl rest hid h1 h2
    refine ⟨?_, labelOnePair_wrap lbl h2⟩
    rw [quoteArrows_append_free id _ hid, quoteArrows_group lbl rest h1 h2]

/-- Claim C2, witness: the universal quoting clauses at concrete
prefixes and labels. -/
theorem c2_witness :
    quoteBrackets (toLC "A" ++ '[' :: (toLC "ok" ++ ']' :: [])) =
      toLC "A" ++ '[' :: ('"' :: (toLC "ok" ++ '"' :: ']' :: quoteBrackets [])) ∧
    quoteArrows (toLC "A " ++ '-' :: '-' :: '>' :: '|' :: (toLC "go" ++ '|' :: [])) =
      toLC "A " ++ '-' :: '-' :: '>' :: '|' :: ('"' :: (toLC "go" ++ '"' :: '|' :: quoteArrows [])) :=
  ⟨(c2_quoting_closure_precollapse.1 (toLC "A") (toLC "ok") []
      (by decide) (by decide) (by decide)).1,
   (c2_quoting_closure_precollapse.2.1 (toLC "A ") (toLC "go") []
      (by decide) (by decide) (by decide)).1⟩

/-! ## Claim C10 -/

/-- Claim C10, counterexample.  Two failures: (1) an input whose first
line is `sequenceDiagram` gets `graph TD` as the first output line but
the original declaration is dropped, not kept as an indented statement;
(2) the first output line does not always start with `graph ` or
`flowchart ` — on `graph |x|\nA` the whitespace collapse deletes the
space of `graph |`, leaving the first line `graph|x|`. -/
theorem c10_declaration_dropped :
    containsSub (toLC "sequenceDiagram")
      (sanitize_mermaid (toLC "sequenceDiagram\nA->>B: hi")) = false ∧
    sanitize_mermaid (toLC "graph |x|\nA") = toLC "graph|x|\n    A" ∧
    (toLC "graph ").isPrefixOf (firstLineOf (sanitize_mermaid (toLC "graph |x|\nA"))) = false ∧
    (toLC "flowchart ").isPrefixOf (firstLineOf (sanitize_mermaid (toLC "graph |x|\nA"))) = false := by
  refine ⟨by decide, by decide, by decide, by decide⟩

/-- Claim C10, amended: for every input, the first line of the
sanitizer's pre-collapse text starts with `graph ` or `flowchart `
(first clause, universal — the final whitespace collapse can then break
this, as the counterexample shows); for every input whose preprocessed
first line is not a `graph `/`flowchart ` declaration — such as one
starting with `sequenceDiagram` — the output is built from `graph TD`
followed by the processed remaining lines only, so the original
declaration line is dropped, not kept (second clause, universal); on
the concrete `sequenceDiagram` input the output is
`graph TD\n    A->>B: hi`, containing no trace of the declaration
(third and fourth clauses). -/
theorem c10_graph_td_prepended :
    (∀ x : LC, ((toLC "graph ").isPrefixOf (firstLineOf (sanitizeCore x)) ||
        (toLC "flowchart ").isPrefixOf (firstLineOf (sanitizeCore x))) = true) ∧
    (∀ (x l0 : LC) (rest : List LC),
      splitLines (pyStrip (declLocate (preClean x))) = l0 :: rest →
      (toLC "graph ").isPrefixOf (pyStrip l0) = false →
      (toLC "flowchart ").isPrefixOf (pyStrip l0) = false →
      sanitize_mermaid x = collapseWhitespace
        (List.intercalate (toLC "\n") (toLC "graph TD" :: rest.filterMap processLine))) ∧
    sanitize_mermaid (toLC "sequenceDiagram\nA->>B: hi") = toLC "graph TD\n    A->>B: hi" ∧
    containsSub (toLC "sequenceDiagram")
      (sanitize_mermaid (toLC "sequenceDiagram\nA->>B: hi")) = false := by
  refine ⟨?_, ?_, by decide, by decide⟩
  · intro x
    exact emitLines_first_decl (declLocate (preClean x))
  · intro x l0 rest hl hg hf
    show collapseWhitespace (emitLines (declLocate (preClean x))) = _
    rw [emitLines_eq _ l0 rest hl, if_neg (by simp [hg, hf])]

/-- Claim C10, witness: the declaration-dropping clause at the
`sequenceDiagram` input and the first-line clause at the
whitespace-collapse counterexample input. -/
theorem c10_witness :
    sanitize_mermaid (toLC "sequenceDiagram\nA->>B: hi") = collapseWhitespace
      (List.intercalate (toLC "\n")
        (toLC "graph TD" :: ([toLC "A->>B: hi"]).filterMap processLine)) ∧
    ((toLC "graph ").isPrefixOf (firstLineOf (sanitizeCore (toLC "graph |x|\nA"))) ||
     (toLC "flowchart ").isPrefixOf (firstLineOf (sanitizeCore (toLC "graph |x|\nA")))) = true :=
  ⟨c10_graph_td_prepended.2.1 _ (toLC "sequenceDiagram") [toLC "A->>B: hi"]
      (by decide) (by decide) (by decide),
   c10_graph_td_prepended.1 _⟩

/-! ## Claims C3, C4, C6, C7: pivot resolution -/

/-- No node line matches when the query is contained in none of the node
labels the scan sees. -/
theorem nodeScanFind_eq_none (move : LC) (lines : List LC)
    (h : ∀ t ∈ nodeLabels lines, containsSub (lowerL move) (lowerL t) = false) :
    nodeScanFind move lines = none := by
  induction lines with
  | nil => rfl
  | cons line rest ih =>
    have hrest : ∀ t ∈ nodeLabels rest, containsSub (lowerL move) (lowerL t) = false := by
      intro t ht
      apply h
      simp only [nodeLabels, List.mem_filterMap] at ht ⊢
      obtain ⟨a, ha, hfa⟩ := ht
      exact ⟨a, by simp [ha], hfa⟩
    cases hopt : nodeLabelOf line with
    | none => simp [nodeScanFind, hopt]; exact ih hrest
    | some ntext =>
      have hhead : containsSub (lowerL move) (lowerL ntext) = false := by
        apply h
        simp [nodeLabels, List.filterMap_cons, hopt]
      simp [nodeScanFind, hopt, hhead]
      exact ih hrest

/-- No edge line matches when the query is contained in none of the edge
labels the scan sees. -/
theorem edgeScanFind_eq_none (move : LC) (lines : List LC)
    (h : ∀ t ∈ edgeLabels lines, containsSub (lowerL move) (lowerL t) = false) :
    edgeScanFind move lines = none := by
  induction lines with
  | nil => rfl
  | cons line rest ih =>
    have hrest : ∀ t ∈ edgeLabels rest, containsSub (lowerL move) (lowerL t) = false := by
      intro t ht
      apply h
      simp only [edgeLabels, List.mem_filterMap] at ht ⊢
      obtain ⟨a, ha, hfa⟩ := ht
      exact ⟨a, by simp [ha], hfa⟩
    cases hopt : edgeLabelOf line with
    | none => simp [edgeScanFind, hopt]; exact ih hrest
    | some alab =>
      have hhead : containsSub (lowerL move) (lowerL alab) = false := by
        apply h
        simp [edgeLabels, List.filterMap_cons, hopt]
      simp [edgeScanFind, hopt, hhead]
      exact ih hrest

/-- Claim C4, counterexample.  The claim asserts `next_move` returns the
original, unmodified text on a miss, but the function first strips debug
sections: on a chart carrying a `[Debug:` trailer and a query matching
no label, the returned text is the stripped chart, not the argument. -/
theorem c4_debug_strip_changes_text :
    (∀ t ∈ nodeLabels (splitLines (pyStrip (toLC "graph TD\n    A[\"x\"]\n[Debug: note]"))),
        containsSub (lowerL (toLC "zzz")) (lowerL t) = false) ∧
    (∀ t ∈ edgeLabels (splitLines (pyStrip (toLC "graph TD\n    A[\"x\"]\n[Debug: note]"))),
        containsSub (lowerL (toLC "zzz")) (lowerL t) = false) ∧
    next_move (toLC "graph TD\n    A[\"x\"]\n[Debug: note]") (toLC "zzz") =
      some (Sum.inl (toLC "graph TD\n    A[\"x\"]")) ∧
    toLC "graph TD\n    A[\"x\"]" ≠ toLC "graph TD\n    A[\"x\"]\n[Debug: note]" := by
  refine ⟨by decide, by decide, by decide, by decide⟩

/-- Claim C4, amended: when the chart carries no debug markers (so debug
stripping is the identity on it) and the query is contained
case-insensitively in none of the node labels and none of the edge
labels the parser sees, `next_move` returns the original, unmodified
chart — a no-op, not an error. -/
theorem c4_no_match_returns_original (chart move : LC)
    (hdbg : pyDebugStrip chart = chart)
    (hn : ∀ t ∈ nodeLabels (splitLines (pyStrip chart)),
        containsSub (lowerL move) (lowerL t) = false)
    (he : ∀ t ∈ edgeLabels (splitLines (pyStrip chart)),
        containsSub (lowerL move) (lowerL t) = false) :
    next_move chart move = some (Sum.inl chart) := by
  have h1 := nodeScanFind_eq_none move (splitLines (pyStrip chart)) hn
  have h2 := edgeScanFind_eq_none move (splitLines (pyStrip chart)) he
  simp [next_move, nextMoveScan, hdbg, h1, h2, optTruthy]

/-- Claim C4, witness. -/
theorem c4_witness :
    next_move (toLC "graph TD\n    A[\"x\"] --> B") (toLC "zzz") =
      some (Sum.inl (toLC "graph TD\n    A[\"x\"] --> B")) :=
  c4_no_match_returns_original _ _ (by decide) (by decide) (by decide)

/-- Claim C3, counterexample.  The claim quantifies over every query
string; with the empty query, a first-in-document-order node match whose
display label is empty is falsy in the source (`if not new_position`),
so the edge scan runs anyway and its match wins: on
`graph TD\n    A[""] --> B\n    C -->|"q"| D["d"]` the node `A` matches
first with label `""`, yet the resolver hands `d` (the edge target) to
the generator. -/
theorem c3_empty_label_falls_through :
    nodeScanFind (toLC "") (splitLines (pyStrip
      (toLC "graph TD\n    A[\"\"] --> B\n    C -->|\"q\"| D[\"d\"]"))) =
      some (toLC "A", toLC "") ∧
    next_move (toLC "graph TD\n    A[\"\"] --> B\n    C -->|\"q\"| D[\"d\"]") (toLC "") =
      some (Sum.inr (toLC "d", toLC "D", [])) ∧
    toLC "d" ≠ toLC "" := by
  refine ⟨by decide, by decide, by decide⟩

/-- Claim C3, amended: whenever the node scan (which checks node
definitions in document order, before any edge label) finds a match
with a non-empty display label, that match wins — `next_move` hands that
label to the generator regardless of any edge-label match.  Empty
matched labels are falsy in the source and fall through to the edge
scan. -/
theorem c3_nonempty_node_match_wins (chart move nid lbl : LC) (ctx : List LC)
    (hnode : nodeScanFind move (splitLines (pyStrip (pyDebugStrip chart))) = some (nid, lbl))
    (hlbl : lbl ≠ []) (hnid : nid ≠ [])
    (hctx : collectContext nid (splitLines (pyStrip (pyDebugStrip chart))) = some ctx) :
    next_move chart move = some (Sum.inr (lbl, nid, ctx)) := by
  have hl : lbl.isEmpty = false := by cases lbl with
    | nil => exact absurd rfl hlbl
    | cons a t => rfl
  have hn : nid.isEmpty = false := by cases nid with
    | nil => exact absurd rfl hnid
    | cons a t => rfl
  simp [next_move, nextMoveScan, hnode, hl, hn, optTruthy, hctx]

/-- Claim C3, witness: a chart where the query `a` matches both the node
label `a` and (as a substring) no edge label is needed — here it also
matches nothing else, and the node match is handed over with its
neighbors. -/
theorem c3_witness :
    next_move
      (toLC "graph TD\n    A[\"a\"] -->|\"l1\"| B[\"b\"]\n    C[\"c\"] -->|\"l2\"| A")
      (toLC "a") =
      some (Sum.inr (toLC "a", toLC "A", [toLC "b", toLC "c"])) :=
  c3_nonempty_node_match_wins _ _ _ _ _ (by decide) (by decide) (by decide) (by decide)

/-- Claim C6, counterexample.  The claim asserts that an edge-label
match resolves to the display label of the edge's target node.  On
`graph TD\n    A -->|"go"| B\n    B["bee"]` with query `go`, no node
label matches, the edge label `go` matches, and the target node `B` has
display label `bee` (defined on its own line) — but the source only
looks for a bracketed label on the edge line itself, finds none, skips
the edge, and returns the original chart with no resolution at all. -/
theorem c6_unbracketed_target_skipped :
    (∀ t ∈ nodeLabels (splitLines (pyStrip (toLC "graph TD\n    A -->|\"go\"| B\n    B[\"bee\"]"))),
        containsSub (lowerL (toLC "go")) (lowerL t) = false) ∧
    ((edgeLabels (splitLines (pyStrip (toLC "graph TD\n    A -->|\"go\"| B\n    B[\"bee\"]")))).any
        (fun t => containsSub (lowerL (toLC "go")) (lowerL t))) = true ∧
    next_move (toLC "graph TD\n    A -->|\"go\"| B\n    B[\"bee\"]") (toLC "go") =
      some (Sum.inl (toLC "graph TD\n    A -->|\"go\"| B\n    B[\"bee\"]")) := by
  refine ⟨by decide, by decide, by decide⟩

/-- Claim C6, amended: when no node label matches and the edge scan
finds a match, the resolved pivot label is the bracketed display text
(quotes stripped) that follows the matched edge's label on the same
line; edges whose same-line target carries no bracketed text are skipped
and resolve nothing. -/
theorem c6_edge_match_resolves_to_bracketed_target (chart move nid lbl : LC) (ctx : List LC)
    (hnode : nodeScanFind move (splitLines (pyStrip (pyDebugStrip chart))) = none)
    (hedge : edgeScanFind move (splitLines (pyStrip (pyDebugStrip chart))) = some (nid, lbl))
    (hlbl : lbl ≠ []) (hnid : nid ≠ [])
    (hctx : collectContext nid (splitLines (pyStrip (pyDebugStrip chart))) = some ctx) :
    next_move chart move = some (Sum.inr (lbl, nid, ctx)) := by
  have hl : lbl.isEmpty = false := by cases lbl with
    | nil => exact absurd rfl hlbl
    | cons a t => rfl
  have hn : nid.isEmpty = false := by cases nid with
    | nil => exact absurd rfl hnid
    | cons a t => rfl
  simp [next_move, nextMoveScan, hnode, hedge, hl, hn, optTruthy, hctx]

/-- Claim C6, witness: the matched edge `pass` resolves to the
bracketed target label `side control` on the same line. -/
theorem c6_witness :
    next_move (toLC "graph TD\n    A[\"guard\"] -->|\"pass\"| B[\"side control\"]")
      (toLC "pass") =
      some (Sum.inr (toLC "side control", toLC "B", [toLC "guard"])) :=
  c6_edge_match_resolves_to_bracketed_target _ _ _ _ _
    (by decide) (by decide) (by decide) (by decide) (by decide)

/-- Claim C7, counterexample.  The claim says the context labels are
exactly the single-hop neighbor labels in both directions.  On
`graph TD\n    A["a"] --> B["b"]` with query `a`, node `B` is directly
reachable from `A` (spec-side neighbor labels `[b]`), but the source
only collects from lines containing the labeled-arrow token `-->|`, so
it collects nothing. -/
theorem c7_unlabeled_edge_not_collected :
    next_move (toLC "graph TD\n    A[\"a\"] --> B[\"b\"]") (toLC "a") =
      some (Sum.inr (toLC "a", toLC "A", [])) ∧
    specNeighborLabels (toLC "graph TD\n    A[\"a\"] --> B[\"b\"]") (toLC "A") = [toLC "b"] ∧
    ([] : List LC) ≠ [toLC "b"] := by
  refine ⟨by decide, by decide, by decide⟩

/-- Claim C7, amended: context labels are collected only from
labeled-arrow (`-->|`) lines — every line without that token is skipped
and contributes nothing, so unlabeled `-->` edges are never collected
(first clause, universal); a line passing the outbound guard (stripped
line starts with the matched id, contains `-->|` and brackets) whose
post-arrow text has no `|` raises the source's IndexError, modelled as
`none`, aborting collection (second clause, universal); on a chart with
a labeled out-edge, a labeled in-edge and an unlabeled out-edge, the
collected context is exactly the two labeled-edge neighbor labels,
while the spec-side both-direction neighbor labels also include the
unlabeled edge's target (third and fourth clauses). -/
theorem c7_context_from_labeled_arrows :
    (∀ (nid line : LC) (rest : List LC), containsSub arrowTok line = false →
      collectContext nid (line :: rest) = collectContext nid rest) ∧
    (∀ (nid line : LC) (rest : List LC),
      nid.isPrefixOf (pyStrip line) = true → containsSub arrowTok line = true →
      containsSub lbTok line = true → containsSub rbTok line = true →
      splitFirst pipeTok (afterFirst arrowTok line) = none →
      collectContext nid (line :: rest) = none) ∧
    next_move
      (toLC "graph TD\n    A[\"mount\"] -->|\"armbar\"| B[\"finish\"]\n    C[\"guard\"] -->|\"sweep\"| A\n    A --> D[\"ignored\"]")
      (toLC "mount") =
      some (Sum.inr (toLC "mount", toLC "A", [toLC "finish", toLC "guard"])) ∧
    specNeighborLabels
      (toLC "graph TD\n    A[\"mount\"] -->|\"armbar\"| B[\"finish\"]\n    C[\"guard\"] -->|\"sweep\"| A\n    A --> D[\"ignored\"]")
      (toLC "A") = [toLC "finish", toLC "ignored", toLC "guard"] := by
  refine ⟨?_, ?_, by decide, by decide⟩
  · intro nid line rest h
    simp [collectContext, h]
  · intro nid line rest h1 h2 h3 h4 h5
    simp [collectContext, h1, h2, h3, h4, h5]

/-- Claim C7, witness: the skip clause at a concrete unlabeled-edge
line and the IndexError clause at a concrete dangling-pipe line. -/
theorem c7_witness :
    collectContext (toLC "A") [toLC "    A --> D[\"x\"]"] = collectContext (toLC "A") [] ∧
    collectContext (toLC "A") [toLC "A -->|broken [x]"] = none :=
  ⟨c7_context_from_labeled_arrows.1 (toLC "A") (toLC "    A --> D[\"x\"]") [] (by decide),
   c7_context_from_labeled_arrows.2.1 (toLC "A") (toLC "A -->|broken [x]") []
      (by decide) (by decide) (by decide) (by decide) (by decide)⟩

/-! ## Claim C8: placeholder rejection -/

/-- Claim C8, counterexample.  The claim asserts that a reply containing
a deny-listed literal is rejected, but the deny-list is checked only
after reply cleanup: a reply whose `Position 1` occurrence sits inside
the `[Debug:` trailer is accepted, because the trailer is cut off before
the check. -/
theorem c8_placeholder_hidden_by_debug_trailer :
    containsSub (toLC "Position 1") (toLC "graph TD\nA[\"S\"] --> B [Debug: Position 1]") = true ∧
    classify_reply (toLC "S") (toLC "graph TD\nA[\"S\"] --> B [Debug: Position 1]") =
      Except.ok (toLC "graph TD\nA[\"S\"] --> B") := by
  refine ⟨by decide, by rfl⟩

/-- Claim C8, amended: whenever the cleaned reply (debug trailer
dropped, fenced `graph` part extracted) contains any deny-listed
placeholder literal, classification rejects it — either as a
placeholder failure or, when the starting position is also absent, as a
missing-start failure — and never accepts it as a valid graph. -/
theorem c8_cleaned_placeholder_rejected (start reply : LC)
    (h : (placeholderTerms.any (fun t => containsSub t (cleanReply reply))) = true) :
    ∃ e, classify_reply start reply = Except.error e := by
  by_cases hs : containsSub start (cleanReply reply) = true
  · have hsome : (placeholderTerms.find? (fun t => containsSub t (cleanReply reply))).isSome = true := by
      rw [List.find?_isSome]
      exact List.any_eq_true.mp h
    cases hf : placeholderTerms.find? (fun t => containsSub t (cleanReply reply)) with
    | none => rw [hf] at hsome; exact absurd hsome (by simp)
    | some t =>
      refine ⟨ReplyError.placeholder t, ?_⟩
      simp [classify_reply, hs, hf]
  · have hs2 : containsSub start (cleanReply reply) = false := by simpa using hs
    exact ⟨ReplyError.missingStart, by simp [classify_reply, hs2]⟩

/-- Claim C8, witness. -/
theorem c8_witness :
    (placeholderTerms.any (fun t => containsSub t
      (cleanReply (toLC "graph TD\nA[\"S\"] --> B[\"Position 1\"]")))) = true ∧
    ∃ e, classify_reply (toLC "S") (toLC "graph TD\nA[\"S\"] --> B[\"Position 1\"]") =
      Except.error e :=
  ⟨by decide, c8_cleaned_placeholder_rejected _ _ (by decide)⟩

/-! ## Claim C9: strategy formatter -/

/-- A list whose `dropWhile` is itself starts with an element the
predicate rejects. -/
theorem dropWhile_self_head (q : Char → Bool) (c : Char) (r : LC)
    (h : List.dropWhile q (c :: r) = c :: r) : q c = false := by
  by_cases hq : q c = true
  · rw [List.dropWhile_cons, if_pos hq] at h
    have hle := (List.dropWhile_suffix (l := r) q).sublist.length_le
    rw [h] at hle
    simp at hle
  · simpa using hq

/-- A stripped text is untouched by a leading `dropWhile`. -/
theorem dropWhile_eq_self_of_stripped (p : LC) (h : pyStrip p = p) :
    List.dropWhile pyIsSpace p = p := by
  have hsuf : List.dropWhile pyIsSpace p <:+ p := List.dropWhile_suffix pyIsSpace
  have h1 : (pyStrip p).length ≤ (List.dropWhile pyIsSpace p).length := by
    rw [pyStrip]
    calc (((List.dropWhile pyIsSpace p).reverse.dropWhile pyIsSpace)).reverse.length
        = ((List.dropWhile pyIsSpace p).reverse.dropWhile pyIsSpace).length := by
          rw [List.length_reverse]
      _ ≤ (List.dropWhile pyIsSpace p).reverse.length :=
          (List.dropWhile_suffix pyIsSpace).sublist.length_le
      _ = (List.dropWhile pyIsSpace p).length := List.length_reverse _
  rw [h] at h1
  exact hsuf.sublist.eq_of_length (Nat.le_antisymm hsuf.sublist.length_le h1)

/-- A stripped text is untouched by a trailing `dropWhile` (phrased on
the reverse). -/
theorem rev_dropWhile_eq_self_of_stripped (p : LC) (h : pyStrip p = p) :
    List.dropWhile pyIsSpace p.reverse = p.reverse := by
  have h0 := h
  rw [pyStrip, dropWhile_eq_self_of_stripped p h0] at h
  rw [List.reverse_eq_iff] at h
  exact h

/-- Stripping after prepending one space gives the stripped text back. -/
theorem pyStrip_space_cons (p : LC) (h : pyStrip p = p) : pyStrip (' ' :: p) = p := by
  have : List.dropWhile pyIsSpace (' ' :: p) = List.dropWhile pyIsSpace p := by
    rw [List.dropWhile_cons]
    simp [pyIsSpace]
  rw [pyStrip, this, dropWhile_eq_self_of_stripped p h]
  rw [rev_dropWhile_eq_self_of_stripped p h]
  exact List.reverse_reverse p

/-- A bullet line built from a stripped, non-empty text is itself
stripped. -/
theorem pyStrip_bullet_line (p : LC) (h : pyStrip p = p) (hp : p ≠ []) :
    pyStrip ('•' :: ' ' :: p) = '•' :: ' ' :: p := by
  have hdrop : List.dropWhile pyIsSpace ('•' :: ' ' :: p) = '•' :: ' ' :: p := by
    rw [List.dropWhile_cons]
    simp [pyIsSpace]
  cases hrev : p.reverse with
  | nil => exact absurd (List.reverse_eq_nil_iff.mp hrev) hp
  | cons c r =>
    have hc : pyIsSpace c = false := by
      apply dropWhile_self_head pyIsSpace c r
      rw [← hrev]
      exact rev_dropWhile_eq_self_of_stripped p h
    have hrev2 : ('•' :: ' ' :: p).reverse = c :: (r ++ [' ', '•']) := by
      simp [hrev]
    rw [pyStrip, hdrop, hrev2, List.dropWhile_cons, if_neg (by simp [hc]), ← hrev2,
      List.reverse_reverse]

/-- Claim C9: the formatter turns `• First point\n• Second point` into
exactly the two points `First point` and `Second point` with the
markers stripped; and, in general, a bullet line followed by a
non-marker line yields one point, the bullet text continued by the
following line with a separating space, rather than two points. -/
theorem c9_formatter_bullets :
    formatStrategyPoints (toLC "• First point\n• Second point") =
      some [toLC "First point", toLC "Second point"] ∧
    ∀ p c : LC, pyStrip p = p → p ≠ [] → pyStrip c = c → c ≠ [] →
      bulletStarts c = false →
      strategyPointsOfLines ['•' :: ' ' :: p, c] = [p ++ ' ' :: c] := by
  refine ⟨by decide, ?_⟩
  intro p c hp hpne hc hcne hcb
  have h1 : pyStrip ('•' :: ' ' :: p) = '•' :: ' ' :: p := pyStrip_bullet_line p hp hpne
  have h2 : pyStrip (' ' :: p) = p := pyStrip_space_cons p hp
  have hce : c.isEmpty = false := by cases c with
    | nil => exact absurd rfl hcne
    | cons a t => rfl
  have hpe : p.isEmpty = false := by cases p with
    | nil => exact absurd rfl hpne
    | cons a t => rfl
  simp only [strategyPointsOfLines, strategyFold, h1, h2, hc]
  have hb1 : bulletStarts ('•' :: ' ' :: p) = true := rfl
  have hn1 : numStarts ('•' :: ' ' :: p) = false := rfl
  simp [hb1, hn1, hcb, hce, hpe, stripBullet, h2]

/-- Claim C9, witness: the general continuation clause at a concrete
bullet line and continuation line. -/
theorem c9_witness :
    formatStrategyPoints (toLC "• First point\n• Second point") =
      some [toLC "First point", toLC "Second point"] ∧
    strategyPointsOfLines [toLC "• alpha", toLC "beta"] = [toLC "alpha beta"] :=
  ⟨c9_formatter_bullets.1,
   c9_formatter_bullets.2 (toLC "alpha") (toLC "beta")
     (by decide) (by decide) (by decide) (by decide) (by decide)⟩
